import Mathlib

/-!
Verification of the package-acquisition and installation engine in
`pkg/apk/apk/implementation.go` (apko's apk package layer).

The Go code is shallowly embedded: machine bytes are `Nat` values below 256,
Go strings are Lean `String`s manipulated through their character lists,
fallible operations return `Except Err`, and all external collaborators
(HTTP transport, archive parser, on-disk filesystem, database writer) are
oracles given as explicit function-valued parameters, so every definition
stays executable.  Concurrency is embedded by serializing the atomic steps:
`sync.Once.Do` makes the whole fetch+expand work of `apkCache.get` atomic
per URL, so two concurrent calls behave exactly like the two sequential
orders, and the errgroup in `InstallPackages` is the zero-value group (no
`errgroup.WithContext`), so worker tasks never observe each other's errors
and the sequential applier is the only writer of install state, which makes
the deterministic whole-batch function below a faithful model of every
interleaving.
-/

namespace ApkVerify

/-- One byte, a natural number below 256 (Go `byte`). -/
abbrev Byte := Nat

/-- Go `strings.HasPrefix`, computed over the character list of the string. -/
def strHasPre (s pre : String) : Bool := pre.data.isPrefixOf s.data

/-- Go `s[n:]` on a string: drop the first `n` characters. -/
def strDrop (s : String) (n : Nat) : String := ⟨s.data.drop n⟩

/-- Go `filepath.Join(dir, name)` for a nonempty `dir` with no trailing slash,
which is the shape of every cache directory the code builds. -/
def joinPath (dir name : String) : String := dir ++ "/" ++ name

/-- Go `strings.TrimSuffix(s, ".gz")`. -/
def trimSuffixGz (s : String) : String :=
  if ['.', 'g', 'z'].isSuffixOf s.data then ⟨s.data.dropLast.dropLast.dropLast⟩ else s

/-- Lower-case hexadecimal digit for a value below 16 (Go `encoding/hex`). -/
def hexDigitChar (n : Nat) : Char :=
  if n < 10 then Char.ofNat (48 + n) else Char.ofNat (87 + n)

/-- Go `hex.EncodeToString`: two lower-case hex digits per byte. -/
def hexEncode (bs : List Byte) : String :=
  ⟨bs.foldr (fun b acc => hexDigitChar (b % 256 / 16) :: hexDigitChar (b % 16) :: acc) []⟩

/-- Value of one hexadecimal digit character (Go `hex` accepts both cases). -/
def hexDigitVal (c : Char) : Option Nat :=
  if '0' ≤ c ∧ c ≤ '9' then some (c.toNat - 48)
  else if 'a' ≤ c ∧ c ≤ 'f' then some (c.toNat - 87)
  else if 'A' ≤ c ∧ c ≤ 'F' then some (c.toNat - 55)
  else none

/-- Go `hex.DecodeString` over a character list: pairs of hex digits. -/
def hexDecodeList : List Char → Option (List Byte)
  | [] => some []
  | c1 :: c2 :: rest => do
    let h ← hexDigitVal c1
    let l ← hexDigitVal c2
    let tail ← hexDecodeList rest
    pure ((16 * h + l) :: tail)
  | [_] => none

/-- Go `hex.DecodeString`. -/
def hexDecode (s : String) : Option (List Byte) := hexDecodeList s.data

/-- Value of one character of the standard base64 alphabet. -/
def b64Val (c : Char) : Option Nat :=
  if 'A' ≤ c ∧ c ≤ 'Z' then some (c.toNat - 65)
  else if 'a' ≤ c ∧ c ≤ 'z' then some (c.toNat - 97 + 26)
  else if '0' ≤ c ∧ c ≤ '9' then some (c.toNat - 48 + 52)
  else if c = '+' then some 62
  else if c = '/' then some 63
  else none

/-- Go `base64.StdEncoding.DecodeString` over a character list: four-character
groups, with `=` padding allowed only in the final group. -/
def b64DecodeList : List Char → Option (List Byte)
  | [] => some []
  | [a, b, '=', '='] => do
    let va ← b64Val a
    let vb ← b64Val b
    pure [(va * 64 + vb) / 16]
  | [a, b, c, '='] => do
    let va ← b64Val a
    let vb ← b64Val b
    let vc ← b64Val c
    let v := (va * 64 + vb) * 64 + vc
    pure [v / 1024, v / 4 % 256]
  | a :: b :: c :: d :: rest => do
    let va ← b64Val a
    let vb ← b64Val b
    let vc ← b64Val c
    let vd ← b64Val d
    let v := ((va * 64 + vb) * 64 + vc) * 64 + vd
    let tail ← b64DecodeList rest
    pure (v / 65536 :: v / 256 % 256 :: v % 256 :: tail)
  | _ => none

/-- Go `base64.StdEncoding.DecodeString`. -/
def base64Decode (s : String) : Option (List Byte) := b64DecodeList s.data

/-- Association lookup with string keys (a Go `map[string]T` read). -/
def alookup {α : Type} : List (String × α) → String → Option α
  | [], _ => none
  | (k, v) :: r, s => if k = s then some v else alookup r s

/-- Errors of the engine.  Wrapping constructors mirror the `fmt.Errorf`
`%w` wrappings in the source. -/
inductive Err where
  | unexpectedChecksum (chk : String)
  | corruptBase64
  | corruptHex
  | statFail (path : String)
  | readFail (path : String)
  | indexFail (path : String)
  | datahashCount (n : Nat)
  | wrapDatahash (pkg : String) (e : Err)
  | mkdirFail (dir : String)
  | fetchFail (url : String)
  | expandFail (pkg : String)
  | wrapFetch (pkg : String) (e : Err)
  | wrapExpand (pkg : String) (e : Err)
  | advertiseFail (src dst : String)
  | cacheDirFail (pkg : String)
  | expansionNil (pkg : String)
  | installFail (pkg : String) (e : Err)
  | ctxCancelled
  | conflict (name : String)
  | resolveFail
deriving DecidableEq, Repr

deriving instance DecidableEq for Except

/-- An installable package as the code sees it (the `InstallablePackage`
capability): `URL()`, `PackageName()` and `ChecksumString()`. -/
structure Pkg where
  url : String
  name : String
  checksum : String
deriving DecidableEq, Repr

/-- The `expandapk.APKExpanded` handle: the three logical segments of an
expanded package with their paths, hashes and sizes. -/
structure APKExpanded where
  controlFile : String
  controlHash : List Byte
  controlSize : Int
  signatureFile : String
  signed : Bool
  signatureHash : List Byte
  signatureSize : Int
  packageFile : String
  packageHash : List Byte
  packageSize : Int
  tarFile : String
  size : Int
deriving DecidableEq, Repr

/-- The on-disk state and filesystem/crypto collaborators that
`cachedPackage` and `cachePackage` consult: `os.Stat` (returning a size on
success), reading and tarfs-indexing the control segment, `os.ReadFile` on
the signature, `sha1.Sum`, `a.controlValue(ctl, "datahash")`,
opening/indexing the data file, `os.MkdirAll`, and
`paths.AdvertiseCachedFile`. -/
structure Disk where
  stat : String → Option Int
  indexControl : String → Except Err Unit
  readSig : String → Except Err (List Byte)
  sha1 : List Byte → List Byte
  controlValues : String → Except Err (List String)
  indexData : String → Except Err Unit
  mkdirOk : String → Bool
  advertise : String → String → Except Err Unit

/-- `APK.cachedPackage` (implementation.go:1116-1210): reconstruct an
`APKExpanded` purely from cache-directory state.  The checksum must be of the
tagged form `Q1<base64>`; the control file is statted at the hex-encoded
checksum, the optional signature next to it, the declared `datahash` is read
from the control segment and locates the data file. -/
def cachedPackage (disk : Disk) (pkg : Pkg) (cacheDir : String) : Except Err APKExpanded :=
  let chk := pkg.checksum
  if ¬ strHasPre chk "Q1" then .error (.unexpectedChecksum chk) else
  match base64Decode (strDrop chk 2) with
  | none => .error .corruptBase64
  | some checksum =>
    let pkgHexSum := hexEncode checksum
    let ctl := joinPath cacheDir (pkgHexSum ++ ".ctl.tar.gz")
    match disk.stat ctl with
    | none => .error (.statFail ctl)
    | some cfSize =>
      match disk.indexControl ctl with
      | .error e => .error e
      | .ok _ =>
        let exp0 : APKExpanded :=
          { controlFile := ctl, controlHash := checksum, controlSize := cfSize
            signatureFile := "", signed := false, signatureHash := [], signatureSize := 0
            packageFile := "", packageHash := [], packageSize := 0
            tarFile := "", size := cfSize }
        let sig := joinPath cacheDir (pkgHexSum ++ ".sig.tar.gz")
        let sigStep : Except Err APKExpanded :=
          match disk.stat sig with
          | none => .ok exp0
          | some sfSize =>
            match disk.readSig sig with
            | .error e => .error e
            | .ok bytes =>
              .ok { exp0 with signatureFile := sig, signed := true
                              size := exp0.size + sfSize, signatureSize := sfSize
                              signatureHash := disk.sha1 bytes }
        match sigStep with
        | .error e => .error e
        | .ok exp1 =>
          match disk.controlValues ctl with
          | .error e => .error (.wrapDatahash pkg.name e)
          | .ok values =>
            match values with
            | [datahash] =>
              let dat := joinPath cacheDir (datahash ++ ".dat.tar.gz")
              match disk.stat dat with
              | none => .error (.statFail dat)
              | some dfSize =>
                match hexDecode datahash with
                | none => .error .corruptHex
                | some packageHash =>
                  let exp2 :=
                    { exp1 with packageFile := dat, packageSize := dfSize
                                size := exp1.size + dfSize, packageHash := packageHash
                                tarFile := trimSuffixGz dat }
                  match disk.indexData exp2.tarFile with
                  | .error e => .error e
                  | .ok _ => .ok exp2
            | other => .error (.wrapDatahash pkg.name (.datahashCount other.length))

/-- `APK.cachePackage` (implementation.go:1051-1114): adopt the temp files of
a freshly expanded package into the cache under content-addressed names, then
re-index the data segment against its canonical path. -/
def cachePackage (disk : Disk) (exp : APKExpanded) (cacheDir : String) : Except Err APKExpanded :=
  let ctlHex := hexEncode exp.controlHash
  let ctlDst := joinPath cacheDir (ctlHex ++ ".ctl.tar.gz")
  match disk.advertise exp.controlFile ctlDst with
  | .error e => .error e
  | .ok _ =>
    let exp1 := { exp with controlFile := ctlDst }
    let sigStep : Except Err APKExpanded :=
      if exp1.signatureFile ≠ "" then
        let sigDst := joinPath cacheDir (ctlHex ++ ".sig.tar.gz")
        match disk.advertise exp1.signatureFile sigDst with
        | .error e => .error e
        | .ok _ => .ok { exp1 with signatureFile := sigDst }
      else .ok exp1
    match sigStep with
    | .error e => .error e
    | .ok exp2 =>
      let datHex := hexEncode exp2.packageHash
      let datDst := joinPath cacheDir (datHex ++ ".dat.tar.gz")
      match disk.advertise exp2.packageFile datDst with
      | .error e => .error e
      | .ok _ =>
        let exp3 := { exp2 with packageFile := datDst }
        let tarDst := trimSuffixGz exp3.packageFile
        match disk.advertise exp3.tarFile tarDst with
        | .error e => .error e
        | .ok _ =>
          let exp4 := { exp3 with tarFile := tarDst }
          match disk.indexData exp4.tarFile with
          | .error e => .error e
          | .ok _ => .ok exp4

/-- The external collaborators of the free function `expandPackage`:
`cacheDirForPackage` (defined in the repository's cache layer, outside this
file), `a.FetchPackage` (scheme-dispatched transport) and
`expandapk.ExpandApk` (the archive parser).  `cacheDirForPackage` is
modelled from the spec: a cache subdirectory derived deterministically from
the package identity. -/
structure FetchEnv where
  cacheDirFor : String → Pkg → Except Err String
  fetchPackage : Pkg → Except Err (List Byte)
  expandApk : List Byte → String → Except Err APKExpanded

/-- The fetch-then-expand sequence of `expandPackage`
(implementation.go:1284-1293), with counters for how many fetches and
archive expansions were attempted (first `Nat` = fetches, second =
expansions). -/
def fetchAndExpand (env : FetchEnv) (pkg : Pkg) (cacheDir : String) :
    Except Err APKExpanded × Nat × Nat :=
  match env.fetchPackage pkg with
  | .error e => (.error (.wrapFetch pkg.name e), 1, 0)
  | .ok rc =>
    match env.expandApk rc cacheDir with
    | .error e => (.error (.wrapExpand pkg.name e), 1, 1)
    | .ok exp => (.ok exp, 1, 1)

/-- The cache-miss path of `expandPackage` (implementation.go:1279-1300):
ensure the cache subdirectory exists, fetch and expand, then adopt into the
cache. -/
def missPath (env : FetchEnv) (disk : Disk) (pkg : Pkg) (cacheDir : String) :
    Except Err APKExpanded × Nat × Nat :=
  if disk.mkdirOk cacheDir then
    match fetchAndExpand env pkg cacheDir with
    | (.error e, f, x) => (.error e, f, x)
    | (.ok exp, f, x) =>
      match cachePackage disk exp cacheDir with
      | .error e => (.error e, f, x)
      | .ok exp2 => (.ok exp2, f, x)
  else (.error (.mkdirFail cacheDir), 0, 0)

/-- The free function `expandPackage` (implementation.go:1258-1301).
`cache = some root` means `a.cache != nil` with cache directory `root`; with
no cache the raw fetch+expand result is returned directly (note the
temp-files comment in the source).  The two counters record fetch and
expansion attempts. -/
def expandPackageFn (env : FetchEnv) (disk : Disk) (cache : Option String) (pkg : Pkg) :
    Except Err APKExpanded × Nat × Nat :=
  match cache with
  | none => fetchAndExpand env pkg ""
  | some root =>
    match env.cacheDirFor root pkg with
    | .error e => (.error e, 0, 0)
    | .ok cacheDir =>
      match cachedPackage disk pkg cacheDir with
      | .ok exp => (.ok exp, 0, 0)
      | .error _ => missPath env disk pkg cacheDir

/-- State of the process-global `apkCache` (implementation.go:1217-1223):
the stored per-URL results.  A URL key being present means its `sync.Once`
has completed. -/
structure ApkCacheState where
  resps : List (String × Except Err APKExpanded)
deriving Repr

/-- `apkCache.get` (implementation.go:1225-1244).  `sync.Once.Do` runs the
whole fetch+expand work at most once per URL and blocks late arrivals until
the stored result is available, so the call is atomic per URL; the returned
`Nat` counts whether this call executed the underlying work. -/
def apkCacheGet (env : FetchEnv) (disk : Disk) (cache : Option String)
    (st : ApkCacheState) (pkg : Pkg) :
    Except Err APKExpanded × ApkCacheState × Nat :=
  match alookup st.resps pkg.url with
  | some r => (r, st, 0)
  | none =>
    let r := (expandPackageFn env disk cache pkg).1
    (r, ⟨(pkg.url, r) :: st.resps⟩, 1)

/-- The method `APK.expandPackage` (implementation.go:1246-1256): with no
cache configured the global dedup cache is bypassed and the work runs
directly; with a cache configured the call goes through `globalApkCache`. -/
def apkExpandPackage (env : FetchEnv) (disk : Disk) (cache : Option String)
    (st : ApkCacheState) (pkg : Pkg) :
    Except Err APKExpanded × ApkCacheState × Nat :=
  match cache with
  | none => ((expandPackageFn env disk none pkg).1, st, 1)
  | some root => apkCacheGet env disk (some root) st pkg

/-- Result of two (serialized-concurrent) calls to `APK.expandPackage` for
the same package: the two observed results, the final coordinator state,
and how many times the underlying fetch+expand work was executed. -/
structure TwiceResult where
  r1 : Except Err APKExpanded
  r2 : Except Err APKExpanded
  st : ApkCacheState
  work : Nat
deriving Repr

/-- Two calls to `APK.expandPackage` for the same package, one after the
other.  Because `sync.Once` serializes the work per URL, every concurrent
interleaving of two calls is observationally one of the two sequential
orders, and the two orders are symmetric. -/
def expandTwice (env : FetchEnv) (disk : Disk) (cache : Option String)
    (st : ApkCacheState) (pkg : Pkg) : TwiceResult :=
  let a := apkExpandPackage env disk cache st pkg
  let b := apkExpandPackage env disk cache a.2.1 pkg
  ⟨a.1, b.1, b.2.1, a.2.2 + b.2.2⟩

/-- One `tar.Header` as the install pipeline cares about it: a path and
whether the entry is a directory. -/
structure FileEntry where
  name : String
  isDir : Bool
deriving DecidableEq, Repr

/-- The installed-metadata record parsed from `.PKGINFO` (`packageInfo`). -/
structure PkgInfo where
  name : String
  version : String
deriving DecidableEq, Repr

/-- What one package's expansion yields, as the install pipeline consumes
it: the authoritative metadata from the control segment, and the data
segment's file entries. -/
structure ExpandedPkg where
  info : PkgInfo
  files : List FileEntry
deriving DecidableEq, Repr

/-- One record of the installed-package database.  `id` stands for the
identity of the `*Package` pointer allocated by `packageInfo`: the Go
finalization pass compares owners by pointer (`owner != pkg`), and a fresh
pointer is allocated per processed batch index, so pointer identity is
embedded as a freshly allocated natural number. -/
structure DBEntry where
  info : PkgInfo
  id : Nat
  files : List FileEntry
deriving DecidableEq, Repr

/-- The mutable state `InstallPackages` acts on.

`installedDB` is the installed-package database (`AddInstalledPackage`
appends to it); `installedFiles` is `a.installedFiles`, the process-lifetime
path → owning-package map, newest claim first; `fsWrites` records every
`(package, path)` write the file-installation routine performs against the
target filesystem; `applied` records, in order, the packages whose apply
step ran to completion; `fetched` records, in order, the packages whose
expansion work a worker executed; `cancelled` is whether the caller's
context is cancelled (nothing inside `InstallPackages` ever cancels it:
the errgroup is the zero value, not `errgroup.WithContext`); `dbResolved`
is the `/lib/apk` alias reconciliation of `resolveApkDB`; `nextId` is the
next pointer identity. -/
structure InstallState where
  installedDB : List DBEntry
  installedFiles : List (String × Nat)
  fsWrites : List (String × String)
  applied : List String
  fetched : List String
  cancelled : Bool
  dbResolved : Bool
  nextId : Nat
deriving DecidableEq, Repr

/-- The collaborators of `InstallPackages`: the per-package result of
`a.expandPackage` (the expansion service modelled above, abstracted here to
its result), and whether `a.installPackage`'s delegated file installation
fails for a package. -/
structure InstallEnv where
  expandOf : Pkg → Except Err ExpandedPkg
  installErr : Pkg → Option Err

/-- Modelled from the spec: `a.isInstalledPackage` (defined outside this
file) reads the installed-package database and reports whether a package
name is already recorded as installed. -/
def isInstalledPackage (name : String) (st : InstallState) : Bool :=
  st.installedDB.any (fun e => decide (e.info.name = name))

/-- The ownership claims one package's file list adds to `a.installedFiles`:
one `path → package` entry per non-directory entry. -/
def pkgClaims (pid : Nat) (files : List FileEntry) : List (String × Nat) :=
  (files.filter (fun f => !f.isDir)).map (fun f => (f.name, pid))

/-- Modelled from the spec: the file-installation routine called by
`a.installPackage` (`installAPKFiles` / `lazilyInstallAPKFiles`, defined
outside this file) writes each entry of the package's data segment to the
target filesystem and records ownership path → package for non-directory
entries in `a.installedFiles` ("filename to owning package, last write
wins"); it returns the written headers.  The scripts.tar and triggers
bookkeeping of `installPackage` touches neither the target file tree nor the
database and is omitted.  Completion is recorded in `applied`. -/
def installPackageM (pid : Nat) (info : PkgInfo) (files : List FileEntry)
    (st : InstallState) : InstallState :=
  { st with
    fsWrites := st.fsWrites ++ files.map (fun f => (info.name, f.name))
    installedFiles := pkgClaims pid files ++ st.installedFiles
    applied := st.applied ++ [info.name] }

/-- Result of the sequential applier goroutine of `InstallPackages`:
its error (if any), the `infos` and `allFiles` arrays, and the state. -/
structure ApplyResult where
  err : Option Err
  infos : List (Option (Nat × PkgInfo))
  allFiles : List (List FileEntry)
  st : InstallState
deriving Repr

/-- The sequential applier goroutine of `InstallPackages`
(implementation.go:725-764): walk the packages in caller order, each paired
with its (already awaited) expansion result; check the context, fail if the
expansion is missing, skip packages already recorded as installed, otherwise
parse `.PKGINFO` (allocating a fresh `*Package` identity) and install.  On
the first error the walk stops; positions not reached keep `nil` entries. -/
def applySeq (env : InstallEnv) : List (Pkg × Option ExpandedPkg) → InstallState → ApplyResult
  | [], st => ⟨none, [], [], st⟩
  | (pkg, oexp) :: rest, st =>
    if st.cancelled then
      ⟨some .ctxCancelled, none :: rest.map (fun _ => none), [] :: rest.map (fun _ => []), st⟩
    else
      match oexp with
      | none =>
        ⟨some (.expansionNil pkg.name), none :: rest.map (fun _ => none),
         [] :: rest.map (fun _ => []), st⟩
      | some exp =>
        if isInstalledPackage pkg.name st then
          let r := applySeq env rest st
          ⟨r.err, none :: r.infos, [] :: r.allFiles, r.st⟩
        else
          let pid := st.nextId
          let info := exp.info
          let st1 := { st with nextId := st.nextId + 1 }
          match env.installErr pkg with
          | some e =>
            ⟨some (.installFail pkg.name e), some (pid, info) :: rest.map (fun _ => none),
             [] :: rest.map (fun _ => []), st1⟩
          | none =>
            let st2 := installPackageM pid info exp.files st1
            let r := applySeq env rest st2
            ⟨r.err, some (pid, info) :: r.infos, exp.files :: r.allFiles, r.st⟩

/-- The `DeleteFunc` predicate of the finalization pass
(implementation.go:801-809): keep a header if it has no owner recorded (the
directory case) or the owner is this very package. -/
def keepFile (ifs : List (String × Nat)) (pid : Nat) (h : FileEntry) : Bool :=
  match alookup ifs h.name with
  | none => true
  | some owner => owner == pid

/-- One step of the finalization pass (implementation.go:789-814): skip
`nil` packages, otherwise drop files owned by a different package and append
the reduced record to the installed database (`AddInstalledPackage`,
modelled from the spec as the database writer's append). -/
def finalizeStep (st : InstallState) : Option (Nat × PkgInfo) × List FileEntry → InstallState
  | (none, _) => st
  | (some (pid, info), files) =>
    { st with installedDB :=
        st.installedDB ++ [⟨info, pid, files.filter (keepFile st.installedFiles pid)⟩] }

/-- The finalization pass over all packages of the batch. -/
def finalizeM (infos : List (Option (Nat × PkgInfo))) (allFiles : List (List FileEntry))
    (st : InstallState) : InstallState :=
  (infos.zip allFiles).foldl finalizeStep st

/-- `APK.InstallPackages` (implementation.go:701-821).  Workers expand every
package concurrently — the zero-value errgroup has no shared cancellable
context, so every worker runs regardless of sibling errors, and only the
per-index results reach the applier; the sequential applier consumes them
in caller order; on success the finalization pass persists the deduplicated
file lists and `resolveApkDB` reconciles the database alias.

A worker error always makes the applier error as well (the applier finds
`expanded[i] == nil` at that index), so the batch errs exactly when the
applier errs; `g.Wait` returns whichever of the racing task errors was
recorded first, and the model deterministically surfaces the applier's. -/
def installPackagesM (env : InstallEnv) (pkgs : List Pkg) (st0 : InstallState) :
    Except Err (List (Option (Nat × PkgInfo))) × InstallState :=
  let expanded := pkgs.map (fun p => if st0.cancelled then none else (env.expandOf p).toOption)
  let stW := { st0 with fetched := st0.fetched ++ pkgs.map (fun p => p.name) }
  let r := applySeq env (pkgs.zip expanded) stW
  match r.err with
  | some e => (.error e, r.st)
  | none =>
    let st2 := finalizeM r.infos r.allFiles r.st
    (.ok r.infos, { st2 with dbResolved := true })

/-- The external dependency resolver consulted by `FixateWorld`:
`ResolveWorld` returns the ordered package list and the conflict names. -/
structure WorldEnv where
  resolveWorld : Except Err (List Pkg × List String)

/-- `APK.FixateWorld` (implementation.go:656-699): resolve the world, fail
on the first conflict name that is already installed, otherwise run the
install pipeline over the resolved list. -/
def fixateWorldM (wenv : WorldEnv) (env : InstallEnv) (st : InstallState) :
    Except Err (List (Option (Nat × PkgInfo))) × InstallState :=
  match wenv.resolveWorld with
  | .error e => (.error e, st)
  | .ok (allpkgs, conflicts) =>
    match conflicts.find? (fun c => isInstalledPackage c st) with
    | some c => (.error (.conflict c), st)
    | none => installPackagesM env allpkgs st

/-! Derived descriptions of a successful apply phase, used to state the
install-pipeline theorems. -/

/-- The `infos` array a fully successful apply phase produces for a package
list, when pointer identities are allocated from `n` on. -/
def expInfos (exps : Pkg → ExpandedPkg) : Nat → List Pkg → List (Option (Nat × PkgInfo))
  | _, [] => []
  | n, p :: r => some (n, (exps p).info) :: expInfos exps (n + 1) r

/-- The ownership-map contents a fully successful apply phase prepends to
`a.installedFiles`: later packages' claims sit in front of earlier ones. -/
def runClaims (exps : Pkg → ExpandedPkg) : Nat → List Pkg → List (String × Nat)
  | _, [] => []
  | n, p :: r => runClaims exps (n + 1) r ++ pkgClaims n (exps p).files

/-- The target-filesystem writes a fully successful apply phase performs,
in order. -/
def runWrites (exps : Pkg → ExpandedPkg) : List Pkg → List (String × String)
  | [] => []
  | p :: r =>
    (exps p).files.map (fun f => ((exps p).info.name, f.name)) ++ runWrites exps r

/-- The install state after a fully successful apply phase over `l`. -/
def advanceSt (exps : Pkg → ExpandedPkg) (l : List Pkg) (st : InstallState) : InstallState :=
  { st with
    nextId := st.nextId + l.length
    fsWrites := st.fsWrites ++ runWrites exps l
    installedFiles := runClaims exps st.nextId l ++ st.installedFiles
    applied := st.applied ++ l.map (fun p => (exps p).info.name) }

/-- The database records the finalization pass appends for a fully
successful batch, deduplicated against the ownership map `ifs`. -/
def dbEntriesOf (ifs : List (String × Nat)) (exps : Pkg → ExpandedPkg) :
    Nat → List Pkg → List DBEntry
  | _, [] => []
  | n, p :: r =>
    ⟨(exps p).info, n, (exps p).files.filter (keepFile ifs n)⟩ :: dbEntriesOf ifs exps (n + 1) r

/-! Concrete instances used by the witnesses below. -/

/-- A populated cache directory for a package with checksum `Q1q80=`
(control hash `[171, 205]`, hex `abcd`), unsigned, with declared datahash
`ef01`. -/
def diskHit : Disk :=
  { stat := fun p => if p = "c/abcd.ctl.tar.gz" then some 10
                     else if p = "c/ef01.dat.tar.gz" then some 20 else none
    indexControl := fun _ => .ok ()
    readSig := fun p => .error (.readFail p)
    sha1 := fun b => b
    controlValues := fun p => if p = "c/abcd.ctl.tar.gz" then .ok ["ef01"] else .error (.readFail p)
    indexData := fun _ => .ok ()
    mkdirOk := fun _ => true
    advertise := fun _ _ => .ok () }

/-- An empty cache directory: every stat fails, directory creation and file
adoption succeed. -/
def diskMiss : Disk :=
  { stat := fun _ => none
    indexControl := fun p => .error (.indexFail p)
    readSig := fun p => .error (.readFail p)
    sha1 := fun b => b
    controlValues := fun p => .error (.readFail p)
    indexData := fun _ => .ok ()
    mkdirOk := fun _ => true
    advertise := fun _ _ => .ok () }

def pkgHit : Pkg := ⟨"https://r/x.apk", "x", "Q1q80="⟩

def pkgMiss : Pkg := ⟨"https://r/y.apk", "y", "Q1q80="⟩

/-- A package whose declared checksum does not carry the `Q1` tag. -/
def pkgNoQ1 : Pkg := ⟨"https://r/z.apk", "z", "sha256:ab"⟩

/-- The handle a fresh (temp-area) expansion produces. -/
def expTmp : APKExpanded :=
  ⟨"/tmp/e/ctl.tar.gz", [171, 205], 10, "", false, [], 0,
   "/tmp/e/dat.tar.gz", [239, 1], 20, "/tmp/e/dat.tar", 30⟩

/-- A transport/parser pair whose fetch and expansion succeed, over a
cache layout rooted at the requested directory. -/
def envFetch : FetchEnv :=
  { cacheDirFor := fun r _ => .ok r
    fetchPackage := fun _ => .ok [7, 7, 7]
    expandApk := fun _ _ => .ok expTmp }

/-- The handle `cachedPackage` reconstructs from `diskHit` for `pkgHit`. -/
def expHit : APKExpanded :=
  ⟨"c/abcd.ctl.tar.gz", [171, 205], 10, "", false, [], 0,
   "c/ef01.dat.tar.gz", [239, 1], 20, "c/ef01.dat.tar", 30⟩

def stEmpty : ApkCacheState := ⟨[]⟩

/-- A signed freshly-expanded handle in the temp area, before adoption. -/
def expAdoptIn : APKExpanded :=
  ⟨"/tmp/e/ctl.tar.gz", [171, 205], 10, "/tmp/e/sig.tar.gz", true, [3], 5,
   "/tmp/e/dat.tar.gz", [239, 1], 20, "/tmp/e/dat.tar", 35⟩

/-- The same handle after adoption into cache directory `c`. -/
def expAdoptOut : APKExpanded :=
  ⟨"c/abcd.ctl.tar.gz", [171, 205], 10, "c/abcd.sig.tar.gz", true, [3], 5,
   "c/ef01.dat.tar.gz", [239, 1], 20, "c/ef01.dat.tar", 35⟩

/-- A populated cache directory holding a signed package. -/
def diskHitSig : Disk :=
  { stat := fun p => if p = "c/abcd.ctl.tar.gz" then some 10
                     else if p = "c/abcd.sig.tar.gz" then some 5
                     else if p = "c/ef01.dat.tar.gz" then some 20 else none
    indexControl := fun _ => .ok ()
    readSig := fun p => if p = "c/abcd.sig.tar.gz" then .ok [9, 9] else .error (.readFail p)
    sha1 := fun b => b
    controlValues := fun p => if p = "c/abcd.ctl.tar.gz" then .ok ["ef01"] else .error (.readFail p)
    indexData := fun _ => .ok ()
    mkdirOk := fun _ => true
    advertise := fun _ _ => .ok () }

/-- The handle `cachedPackage` reconstructs from `diskHitSig` for `pkgHit`. -/
def expLookSig : APKExpanded :=
  ⟨"c/abcd.ctl.tar.gz", [171, 205], 10, "c/abcd.sig.tar.gz", true, [9, 9], 5,
   "c/ef01.dat.tar.gz", [239, 1], 20, "c/ef01.dat.tar", 35⟩

/-- A freshly initialized install target: empty database, empty ownership
map, live context. -/
def stFresh : InstallState := ⟨[], [], [], [], [], false, false, 0⟩

/-- Expansion payloads for install-pipeline witnesses: each package carries
one shared directory and one file named after the package. -/
def expsW : Pkg → ExpandedPkg := fun p =>
  ⟨⟨p.name, "1"⟩, [⟨"/bin", true⟩, ⟨"/bin/" ++ p.name, false⟩]⟩

/-- An install environment whose expansion succeeds for every package except
those named `f`, and whose file installation always succeeds. -/
def envInstall : InstallEnv :=
  { expandOf := fun p => if p.name = "f" then .error (.fetchFail p.url) else .ok (expsW p)
    installErr := fun _ => none }

def pkgW1 : Pkg := ⟨"https://r/w1.apk", "w1", "Q1w1"⟩

def pkgF : Pkg := ⟨"https://r/f.apk", "f", "Q1ff"⟩

def pkgW3 : Pkg := ⟨"https://r/w3.apk", "w3", "Q1w3"⟩

def pkgA4 : Pkg := ⟨"https://r/pa.apk", "pa", "Q1pa"⟩

def pkgB4 : Pkg := ⟨"https://r/pb.apk", "pb", "Q1pb"⟩

/-- Expansion payloads for the ownership witness: packages `pa` and `pb`
both install `/bin` (a directory) and the file `/bin/x`; `pa` additionally
installs `/bin/onlya`. -/
def exps4 : Pkg → ExpandedPkg := fun p =>
  if p.name = "pa" then ⟨⟨"pa", "1"⟩, [⟨"/bin", true⟩, ⟨"/bin/x", false⟩, ⟨"/bin/onlya", false⟩]⟩
  else ⟨⟨p.name, "1"⟩, [⟨"/bin", true⟩, ⟨"/bin/x", false⟩]⟩

/-- An install environment realizing `exps4`. -/
def envOwn : InstallEnv :=
  { expandOf := fun p => .ok (exps4 p), installErr := fun _ => none }

/-- A resolver whose conflict list names `gcc`. -/
def wenvConflict : WorldEnv := ⟨.ok ([], ["gcc"])⟩

/-- A target that already has `gcc` installed. -/
def stGcc : InstallState := ⟨[⟨⟨"gcc", "1"⟩, 0, []⟩], [], [], [], [], false, false, 1⟩

/-! Helper lemmas. -/

theorem fetchAndExpand_fetchCount (env : FetchEnv) (pkg : Pkg) (d : String) :
    (fetchAndExpand env pkg d).2.1 = 1 := by
  cases hf : env.fetchPackage pkg with
  | error e => simp [fetchAndExpand, hf]
  | ok rc =>
    cases hx : env.expandApk rc d with
    | error e => simp [fetchAndExpand, hf, hx]
    | ok exp => simp [fetchAndExpand, hf, hx]

theorem missPath_fetchCount (env : FetchEnv) (disk : Disk) (pkg : Pkg) (cd : String)
    (h : disk.mkdirOk cd = true) :
    (missPath env disk pkg cd).2.1 = 1 := by
  have h1 := fetchAndExpand_fetchCount env pkg cd
  rcases hfe : fetchAndExpand env pkg cd with ⟨r, f, x⟩
  rw [hfe] at h1
  simp only at h1
  cases r with
  | error e => simp [missPath, h, hfe, h1]
  | ok exp =>
    cases hc : cachePackage disk exp cd with
    | error e2 => simp [missPath, h, hfe, hc, h1]
    | ok e2 => simp [missPath, h, hfe, hc, h1]

/-! Claim C6. -/

/-- Claim C6: for every package whose cache lookup succeeds, `expandPackage`
returns the reconstructed handle immediately, performing zero fetches and
zero re-expansions. -/
theorem c6_cache_hit_no_refetch (env : FetchEnv) (disk : Disk) (root cacheDir : String)
    (pkg : Pkg) (exp : APKExpanded)
    (hdir : env.cacheDirFor root pkg = .ok cacheDir)
    (hhit : cachedPackage disk pkg cacheDir = .ok exp) :
    expandPackageFn env disk (some root) pkg = (.ok exp, 0, 0) := by
  simp [expandPackageFn, hdir, hhit]

theorem c6_witness :
    (envFetch.cacheDirFor "c" pkgHit = .ok "c"
      ∧ cachedPackage diskHit pkgHit "c" = .ok expHit)
    ∧ expandPackageFn envFetch diskHit (some "c") pkgHit = (.ok expHit, 0, 0) :=
  ⟨⟨by decide, by decide⟩,
   c6_cache_hit_no_refetch envFetch diskHit "c" "c" pkgHit expHit (by decide) (by decide)⟩

/-! Claim C7. -/

theorem expandPackageFn_miss (env : FetchEnv) (disk : Disk) (root cacheDir : String)
    (pkg : Pkg) (e : Err)
    (hdir : env.cacheDirFor root pkg = .ok cacheDir)
    (hmiss : cachedPackage disk pkg cacheDir = .error e)
    (hmk : disk.mkdirOk cacheDir = true) :
    expandPackageFn env disk (some root) pkg = missPath env disk pkg cacheDir
    ∧ (expandPackageFn env disk (some root) pkg).2.1 = 1 := by
  have heq : expandPackageFn env disk (some root) pkg = missPath env disk pkg cacheDir := by
    simp [expandPackageFn, hdir, hmiss]
  refine ⟨heq, ?_⟩
  rw [heq]
  exact missPath_fetchCount env disk pkg cacheDir hmk

/-- Claim C7: any failure while reconstructing a package from the on-disk
cache is a cache miss, not a hard error: `expandPackage` proceeds to the
full fetch-and-expand path (exactly one fetch attempt) and the lookup error
is never returned. -/
theorem c7_lookup_failure_is_miss (env : FetchEnv) (disk : Disk) (root cacheDir : String)
    (pkg : Pkg) (e : Err)
    (hdir : env.cacheDirFor root pkg = .ok cacheDir)
    (hmiss : cachedPackage disk pkg cacheDir = .error e)
    (hmk : disk.mkdirOk cacheDir = true) :
    expandPackageFn env disk (some root) pkg = missPath env disk pkg cacheDir
    ∧ (expandPackageFn env disk (some root) pkg).2.1 = 1 :=
  expandPackageFn_miss env disk root cacheDir pkg e hdir hmiss hmk

theorem c7_witness :
    (envFetch.cacheDirFor "c" pkgMiss = .ok "c"
      ∧ cachedPackage diskMiss pkgMiss "c" = .error (.statFail "c/abcd.ctl.tar.gz")
      ∧ diskMiss.mkdirOk "c" = true)
    ∧ (expandPackageFn envFetch diskMiss (some "c") pkgMiss = missPath envFetch diskMiss pkgMiss "c"
      ∧ (expandPackageFn envFetch diskMiss (some "c") pkgMiss).2.1 = 1) :=
  ⟨⟨by decide, by decide, by decide⟩,
   c7_lookup_failure_is_miss envFetch diskMiss "c" "c" pkgMiss (.statFail "c/abcd.ctl.tar.gz")
     (by decide) (by decide) (by decide)⟩

/-! Claim C10. -/

/-- Claim C10: a package whose checksum string does not begin with `Q1`
never gets a cache hit — the lookup always returns the unexpected-checksum
error — so the package is always fetched and expanded even when a cache
directory is configured and populated. -/
theorem c10_non_q1_always_fetches (env : FetchEnv) (disk : Disk) (root cacheDir : String)
    (pkg : Pkg)
    (hchk : strHasPre pkg.checksum "Q1" = false)
    (hdir : env.cacheDirFor root pkg = .ok cacheDir)
    (hmk : disk.mkdirOk cacheDir = true) :
    cachedPackage disk pkg cacheDir = .error (.unexpectedChecksum pkg.checksum)
    ∧ expandPackageFn env disk (some root) pkg = missPath env disk pkg cacheDir
    ∧ (expandPackageFn env disk (some root) pkg).2.1 = 1 := by
  have hm : cachedPackage disk pkg cacheDir = .error (.unexpectedChecksum pkg.checksum) := by
    unfold cachedPackage
    simp [hchk]
  obtain ⟨h1, h2⟩ := expandPackageFn_miss env disk root cacheDir pkg _ hdir hm hmk
  exact ⟨hm, h1, h2⟩

theorem c10_witness :
    (strHasPre pkgNoQ1.checksum "Q1" = false
      ∧ envFetch.cacheDirFor "c" pkgNoQ1 = .ok "c"
      ∧ diskHit.mkdirOk "c" = true)
    ∧ (cachedPackage diskHit pkgNoQ1 "c" = .error (.unexpectedChecksum "sha256:ab")
      ∧ expandPackageFn envFetch diskHit (some "c") pkgNoQ1 = missPath envFetch diskHit pkgNoQ1 "c"
      ∧ (expandPackageFn envFetch diskHit (some "c") pkgNoQ1).2.1 = 1) :=
  ⟨⟨by decide, by decide, by decide⟩,
   c10_non_q1_always_fetches envFetch diskHit "c" "c" pkgNoQ1 (by decide) (by decide) (by decide)⟩

/-! Claim C8. -/

theorem cachePackage_names (diskA : Disk) (cacheDir : String)
    (exp exp2 : APKExpanded)
    (hadopt : cachePackage diskA exp cacheDir = .ok exp2) :
    exp2.controlFile = joinPath cacheDir (hexEncode exp.controlHash ++ ".ctl.tar.gz")
      ∧ (exp.signatureFile ≠ "" →
          exp2.signatureFile = joinPath cacheDir (hexEncode exp.controlHash ++ ".sig.tar.gz"))
      ∧ exp2.packageFile = joinPath cacheDir (hexEncode exp.packageHash ++ ".dat.tar.gz") := by
  simp only [cachePackage] at hadopt
  split at hadopt
  · exact absurd hadopt (by simp)
  · split at hadopt
    · exact absurd hadopt (by simp)
    · split at hadopt
      · exact absurd hadopt (by simp)
      · split at hadopt
        · exact absurd hadopt (by simp)
        · split at hadopt
          · exact absurd hadopt (by simp)
          · rename_i exp1 hsig x2 a2 hdat x1 a1 htar x0 a0 hidx
            injection hadopt with h2
            subst h2
            by_cases hs : exp.signatureFile = ""
            · rw [if_neg (not_not_intro hs)] at hsig
              injection hsig with h1
              subst h1
              exact ⟨rfl, fun hne => absurd hs hne, rfl⟩
            · rw [if_pos hs] at hsig
              cases hadv : diskA.advertise exp.signatureFile
                  (joinPath cacheDir (hexEncode exp.controlHash ++ ".sig.tar.gz")) with
              | error e => rw [hadv] at hsig; cases hsig
              | ok u =>
                rw [hadv] at hsig
                injection hsig with h1
                subst h1
                exact ⟨rfl, fun _ => rfl, rfl⟩

theorem cachedPackage_names (diskL : Disk) (pkg : Pkg) (cacheDir : String)
    (expL : APKExpanded) (h : List Byte)
    (hb : base64Decode (strDrop pkg.checksum 2) = some h)
    (hlook : cachedPackage diskL pkg cacheDir = .ok expL) :
    expL.controlFile = joinPath cacheDir (hexEncode h ++ ".ctl.tar.gz")
      ∧ (expL.signed = true → expL.signatureFile = joinPath cacheDir (hexEncode h ++ ".sig.tar.gz"))
      ∧ ∃ dh, hexDecode dh = some expL.packageHash
          ∧ expL.packageFile = joinPath cacheDir (dh ++ ".dat.tar.gz") := by
  simp only [cachedPackage] at hlook
  split at hlook
  · exact absurd hlook (by simp)
  · split at hlook
    · exact absurd hlook (by simp)
    · split at hlook
      · exact absurd hlook (by simp)
      · split at hlook
        · exact absurd hlook (by simp)
        · split at hlook
          · exact absurd hlook (by simp)
          · split at hlook
            · exact absurd hlook (by simp)
            · split at hlook
              · split at hlook
                · exact absurd hlook (by simp)
                · split at hlook
                  · exact absurd hlook (by simp)
                  · split at hlook
                    · exact absurd hlook (by simp)
                    · rename_i chksum hb2 x5 cfsz hstatc x4 a1u hidxc sigStep0 exp1 hsig x3
                        vals dhash hcv x2 dfsz hstatd x1 ph hhex x0 a0 hidxd
                      injection hlook with h2
                      subst h2
                      rw [hb] at hb2
                      injection hb2 with hh
                      subst hh
                      cases hstatsig : diskL.stat (joinPath cacheDir (hexEncode h ++ ".sig.tar.gz")) with
                      | none =>
                        rw [hstatsig] at hsig
                        injection hsig with h1
                        subst h1
                        exact ⟨rfl, fun hs => absurd hs (by simp), ⟨dhash, hhex, rfl⟩⟩
                      | some ssz =>
                        rw [hstatsig] at hsig
                        cases hrs : diskL.readSig (joinPath cacheDir (hexEncode h ++ ".sig.tar.gz")) with
                        | error e => rw [hrs] at hsig; cases hsig
                        | ok bytes =>
                          rw [hrs] at hsig
                          injection hsig with h1
                          subst h1
                          exact ⟨rfl, fun _ => rfl, ⟨dhash, hhex, rfl⟩⟩
              · exact absurd hlook (by simp)

/-- Claim C8: for a package whose checksum has the tagged form `Q1<base64>`,
the cache file names used for lookup and for adoption are deterministic
functions of the hashes: the hex-encoded control hash plus `.ctl.tar.gz`,
the same hex plus `.sig.tar.gz` when the package is signed, and the
hex-encoded datahash plus `.dat.tar.gz`. -/
theorem c8_cache_names_deterministic (diskA diskL : Disk) (pkg : Pkg) (cacheDir : String)
    (exp exp2 expL : APKExpanded) (h : List Byte)
    (hb : base64Decode (strDrop pkg.checksum 2) = some h)
    (hadopt : cachePackage diskA exp cacheDir = .ok exp2)
    (hlook : cachedPackage diskL pkg cacheDir = .ok expL) :
    (exp2.controlFile = joinPath cacheDir (hexEncode exp.controlHash ++ ".ctl.tar.gz")
      ∧ (exp.signatureFile ≠ "" →
          exp2.signatureFile = joinPath cacheDir (hexEncode exp.controlHash ++ ".sig.tar.gz"))
      ∧ exp2.packageFile = joinPath cacheDir (hexEncode exp.packageHash ++ ".dat.tar.gz"))
    ∧ (expL.controlFile = joinPath cacheDir (hexEncode h ++ ".ctl.tar.gz")
      ∧ (expL.signed = true → expL.signatureFile = joinPath cacheDir (hexEncode h ++ ".sig.tar.gz"))
      ∧ ∃ dh, hexDecode dh = some expL.packageHash
          ∧ expL.packageFile = joinPath cacheDir (dh ++ ".dat.tar.gz")) :=
  ⟨cachePackage_names diskA cacheDir exp exp2 hadopt,
   cachedPackage_names diskL pkg cacheDir expL h hb hlook⟩

theorem c8_witness :
    (base64Decode (strDrop pkgHit.checksum 2) = some [171, 205]
      ∧ cachePackage diskHitSig expAdoptIn "c" = .ok expAdoptOut
      ∧ cachedPackage diskHitSig pkgHit "c" = .ok expLookSig)
    ∧ ((expAdoptOut.controlFile = joinPath "c" (hexEncode expAdoptIn.controlHash ++ ".ctl.tar.gz")
      ∧ (expAdoptIn.signatureFile ≠ "" →
          expAdoptOut.signatureFile = joinPath "c" (hexEncode expAdoptIn.controlHash ++ ".sig.tar.gz"))
      ∧ expAdoptOut.packageFile = joinPath "c" (hexEncode expAdoptIn.packageHash ++ ".dat.tar.gz"))
    ∧ (expLookSig.controlFile = joinPath "c" (hexEncode [171, 205] ++ ".ctl.tar.gz")
      ∧ (expLookSig.signed = true →
          expLookSig.signatureFile = joinPath "c" (hexEncode [171, 205] ++ ".sig.tar.gz"))
      ∧ ∃ dh, hexDecode dh = some expLookSig.packageHash
          ∧ expLookSig.packageFile = joinPath "c" (dh ++ ".dat.tar.gz"))) :=
  ⟨⟨by decide, by decide, by decide⟩,
   c8_cache_names_deterministic diskHitSig diskHitSig pkgHit "c" expAdoptIn expAdoptOut expLookSig
     [171, 205] (by decide) (by decide) (by decide)⟩

/-! Claim C1. -/

/-- Claim C1 counterexample: with no on-disk cache configured,
`APK.expandPackage` bypasses the global dedup coordinator entirely
(implementation.go:1246-1253: `if a.cache == nil` runs the work directly and
never consults `globalApkCache`), so two calls for the same package-source
URL execute the underlying fetch+expand work twice, not once. -/
theorem c1_counterexample :
    (expandTwice envFetch diskMiss none stEmpty pkgHit).work = 2
    ∧ (expandTwice envFetch diskMiss none stEmpty pkgHit).work ≠ 1 := by decide

/-- Claim C1 amended: the exactly-once guarantee holds when a cache
directory IS configured — `globalApkCache.get` then executes the underlying
fetch+expand work exactly once per package-source URL and both callers
receive the identical stored result; with no cache configured each call
performs its own fetch+expand. -/
theorem c1_amended_coordinator_dedups (env : FetchEnv) (disk : Disk) (root : String)
    (st : ApkCacheState) (pkg : Pkg)
    (hnew : alookup st.resps pkg.url = none) :
    (expandTwice env disk (some root) st pkg).work = 1
    ∧ (expandTwice env disk (some root) st pkg).r1
        = (expandTwice env disk (some root) st pkg).r2 := by
  unfold expandTwice apkExpandPackage apkCacheGet
  simp [hnew, alookup]

theorem c1_amended_witness :
    alookup stEmpty.resps pkgHit.url = none
    ∧ ((expandTwice envFetch diskMiss (some "c") stEmpty pkgHit).work = 1
      ∧ (expandTwice envFetch diskMiss (some "c") stEmpty pkgHit).r1
          = (expandTwice envFetch diskMiss (some "c") stEmpty pkgHit).r2) :=
  ⟨rfl, c1_amended_coordinator_dedups envFetch diskMiss "c" stEmpty pkgHit rfl⟩


/-! General lemmas about the install pipeline. -/

theorem zip_map_pair {α β : Type} (g : α → β) (l : List α) :
    l.zip (l.map g) = l.map (fun a => (a, g a)) := by
  induction l with
  | nil => rfl
  | cons a r ih => simp [ih]

theorem applySeq_frame (env : InstallEnv) (l : List (Pkg × Option ExpandedPkg)) :
    ∀ st : InstallState,
      (applySeq env l st).st.installedDB = st.installedDB
      ∧ (applySeq env l st).st.cancelled = st.cancelled
      ∧ (applySeq env l st).st.fetched = st.fetched
      ∧ (applySeq env l st).st.dbResolved = st.dbResolved := by
  induction l with
  | nil => intro st; exact ⟨rfl, rfl, rfl, rfl⟩
  | cons hd tl ih =>
    intro st
    obtain ⟨pkg, oexp⟩ := hd
    by_cases hcanc : st.cancelled = true
    · simp [applySeq, hcanc]
    · cases oexp with
      | none => simp [applySeq, hcanc]
      | some exp =>
        by_cases hinst : isInstalledPackage pkg.name st = true
        · have h := ih st
          simp [applySeq, hcanc, hinst, h.1, h.2.1, h.2.2.1, h.2.2.2]
        · cases hie : env.installErr pkg with
          | some e => simp [applySeq, hcanc, hinst, hie]
          | none =>
            have h := ih (installPackageM st.nextId exp.info exp.files { st with nextId := st.nextId + 1 })
            simpa [applySeq, hcanc, hinst, hie, installPackageM] using h

theorem finalizeStep_frame (st : InstallState) (x : Option (Nat × PkgInfo) × List FileEntry) :
    (finalizeStep st x).installedFiles = st.installedFiles
    ∧ (finalizeStep st x).cancelled = st.cancelled
    ∧ (finalizeStep st x).fetched = st.fetched
    ∧ (finalizeStep st x).fsWrites = st.fsWrites
    ∧ (finalizeStep st x).applied = st.applied
    ∧ (finalizeStep st x).nextId = st.nextId := by
  obtain ⟨oinfo, files⟩ := x
  cases oinfo with
  | none => exact ⟨rfl, rfl, rfl, rfl, rfl, rfl⟩
  | some pi =>
    obtain ⟨pid, info⟩ := pi
    exact ⟨rfl, rfl, rfl, rfl, rfl, rfl⟩

theorem foldl_finalizeStep_frame (ps : List (Option (Nat × PkgInfo) × List FileEntry)) :
    ∀ st : InstallState,
      (ps.foldl finalizeStep st).installedFiles = st.installedFiles
      ∧ (ps.foldl finalizeStep st).cancelled = st.cancelled
      ∧ (ps.foldl finalizeStep st).fetched = st.fetched
      ∧ (ps.foldl finalizeStep st).fsWrites = st.fsWrites
      ∧ (ps.foldl finalizeStep st).applied = st.applied
      ∧ (ps.foldl finalizeStep st).nextId = st.nextId := by
  induction ps with
  | nil => intro st; exact ⟨rfl, rfl, rfl, rfl, rfl, rfl⟩
  | cons x r ih =>
    intro st
    have h1 := finalizeStep_frame st x
    have h2 := ih (finalizeStep st x)
    simp only [List.foldl_cons]
    exact ⟨h2.1.trans h1.1, h2.2.1.trans h1.2.1, h2.2.2.1.trans h1.2.2.1,
           h2.2.2.2.1.trans h1.2.2.2.1, h2.2.2.2.2.1.trans h1.2.2.2.2.1,
           h2.2.2.2.2.2.trans h1.2.2.2.2.2⟩


theorem advanceSt_cons (exps : Pkg → ExpandedPkg) (p : Pkg) (l : List Pkg) (st : InstallState) :
    advanceSt exps l
      (installPackageM st.nextId (exps p).info (exps p).files { st with nextId := st.nextId + 1 })
      = advanceSt exps (p :: l) st := by
  obtain ⟨db, ifs, fw, ap, fe, cn, dr, ni⟩ := st
  simp [advanceSt, installPackageM, runClaims, runWrites, List.append_assoc]
  omega

theorem applySeq_success_cont (env : InstallEnv) (exps : Pkg → ExpandedPkg) (l : List Pkg)
    (tail : List (Pkg × Option ExpandedPkg)) :
    ∀ st : InstallState, st.cancelled = false →
    (∀ p ∈ l, env.installErr p = none) →
    (∀ p ∈ l, isInstalledPackage p.name st = false) →
    applySeq env (l.map (fun p => (p, some (exps p))) ++ tail) st =
      ⟨(applySeq env tail (advanceSt exps l st)).err,
       expInfos exps st.nextId l ++ (applySeq env tail (advanceSt exps l st)).infos,
       l.map (fun p => (exps p).files) ++ (applySeq env tail (advanceSt exps l st)).allFiles,
       (applySeq env tail (advanceSt exps l st)).st⟩ := by
  induction l with
  | nil =>
    intro st hc _ _
    simp [advanceSt, runClaims, runWrites, expInfos]
  | cons p l ih =>
    intro st hc hie hni
    have hni' : isInstalledPackage p.name st = false := hni p (by simp)
    have hie' : env.installErr p = none := hie p (by simp)
    have hrec := ih
      (installPackageM st.nextId (exps p).info (exps p).files { st with nextId := st.nextId + 1 })
      (by simp [installPackageM, hc])
      (fun q hq => hie q (by simp [hq]))
      (fun q hq => by
        have hq2 := hni q (by simp [hq])
        simpa [isInstalledPackage, installPackageM] using hq2)
    simp only [List.map_cons, List.cons_append, applySeq]
    simp only [List.append_eq] at hrec ⊢
    rw [if_neg (by simp [hc]), if_neg (by simp [hni']), hie', hrec, advanceSt_cons]
    simp [expInfos, installPackageM]

theorem applySeq_allInstalled (env : InstallEnv) (exps : Pkg → ExpandedPkg) (l : List Pkg) :
    ∀ st : InstallState, st.cancelled = false →
    (∀ p ∈ l, isInstalledPackage p.name st = true) →
    applySeq env (l.map (fun p => (p, some (exps p)))) st =
      ⟨none, l.map (fun _ => none), l.map (fun _ => []), st⟩ := by
  induction l with
  | nil => intro st _ _; rfl
  | cons p l ih =>
    intro st hc hin
    have hin' : isInstalledPackage p.name st = true := hin p (by simp)
    simp only [List.map_cons, applySeq]
    rw [if_neg (by simp [hc]), if_pos hin', ih st hc (fun q hq => hin q (by simp [hq]))]

theorem finalizeM_nones (l : List Pkg) (fls : List (List FileEntry)) (st : InstallState) :
    finalizeM (l.map (fun _ => none)) fls st = st := by
  induction l generalizing fls st with
  | nil => rfl
  | cons p r ih =>
    cases fls with
    | nil => rfl
    | cons f fr =>
      have h := ih fr st
      simp only [finalizeM, List.map_cons, List.zip_cons_cons, List.foldl_cons] at h ⊢
      simpa [finalizeStep] using h

theorem finalizeM_expInfos (exps : Pkg → ExpandedPkg) (l : List Pkg) :
    ∀ (n : Nat) (st : InstallState),
      finalizeM (expInfos exps n l) (l.map (fun p => (exps p).files)) st =
        { st with installedDB := st.installedDB ++ dbEntriesOf st.installedFiles exps n l } := by
  induction l with
  | nil => intro n st; simp [finalizeM, expInfos, dbEntriesOf]
  | cons p r ih =>
    intro n st
    have h := ih (n + 1) (finalizeStep st (some (n, (exps p).info), (exps p).files))
    simp only [expInfos, List.map_cons, finalizeM, List.zip_cons_cons, List.foldl_cons] at h ⊢
    rw [h]
    obtain ⟨db, ifs, fw, ap, fe, cn, dr, ni⟩ := st
    simp [finalizeStep, dbEntriesOf, List.append_assoc]

theorem expandedList_eq (env : InstallEnv) (exps : Pkg → ExpandedPkg) (pkgs : List Pkg)
    (st0 : InstallState) (hc : st0.cancelled = false)
    (hexp : ∀ p ∈ pkgs, env.expandOf p = .ok (exps p)) :
    pkgs.zip (pkgs.map (fun p => if st0.cancelled = true then none else (env.expandOf p).toOption))
      = pkgs.map (fun p => (p, some (exps p))) := by
  rw [zip_map_pair]
  apply List.map_congr_left
  intro p hp
  simp [hc, hexp p hp, Except.toOption]

theorem c2_amended_no_cancellation (env : InstallEnv) (pkgs : List Pkg) (st0 : InstallState) :
    (installPackagesM env pkgs st0).2.cancelled = st0.cancelled
    ∧ (installPackagesM env pkgs st0).2.fetched = st0.fetched ++ pkgs.map (fun p => p.name) := by
  have hA := applySeq_frame env
    (pkgs.zip (pkgs.map (fun p => if st0.cancelled = true then none else (env.expandOf p).toOption)))
    { st0 with fetched := st0.fetched ++ pkgs.map (fun p => p.name) }
  rcases happ : applySeq env
      (pkgs.zip (pkgs.map (fun p => if st0.cancelled = true then none else (env.expandOf p).toOption)))
      { st0 with fetched := st0.fetched ++ pkgs.map (fun p => p.name) } with ⟨oerr, infos, alls, st1⟩
  rw [happ] at hA
  have hF := foldl_finalizeStep_frame (infos.zip alls) st1
  simp only [installPackagesM, happ]
  cases oerr with
  | some e => exact ⟨hA.2.1, hA.2.2.1⟩
  | none => exact ⟨hF.2.1.trans hA.2.1, hF.2.2.1.trans hA.2.2.1⟩

/-- Claim C3: if the expansion of the package at index `k` permanently
fails (and apply succeeds for earlier packages on a target where they are
not yet installed), `InstallPackages` returns the expansion error, each
package at an index below `k` is fully applied to the target filesystem,
and no package at an index at or above `k` is applied. -/
theorem c3_failure_cuts_batch (env : InstallEnv) (exps : Pkg → ExpandedPkg)
    (l1 l2 : List Pkg) (pf : Pkg) (e : Err) (st0 : InstallState)
    (hc : st0.cancelled = false)
    (h1 : ∀ p ∈ l1, env.expandOf p = .ok (exps p))
    (h2 : ∀ p ∈ l1, env.installErr p = none)
    (h3 : ∀ p ∈ l1, isInstalledPackage p.name st0 = false)
    (hf : env.expandOf pf = .error e) :
    (installPackagesM env (l1 ++ pf :: l2) st0).1 = .error (.expansionNil pf.name)
    ∧ (installPackagesM env (l1 ++ pf :: l2) st0).2.applied
        = st0.applied ++ l1.map (fun p => (exps p).info.name)
    ∧ (installPackagesM env (l1 ++ pf :: l2) st0).2.fsWrites
        = st0.fsWrites ++ runWrites exps l1 := by
  have hzip : (l1 ++ pf :: l2).zip ((l1 ++ pf :: l2).map
        (fun p => if st0.cancelled = true then none else (env.expandOf p).toOption))
      = l1.map (fun p => (p, some (exps p)))
        ++ (pf, none) :: l2.map (fun p => (p, if st0.cancelled = true then none else (env.expandOf p).toOption)) := by
    rw [zip_map_pair]
    simp only [List.map_append, List.map_cons]
    congr 1
    · apply List.map_congr_left
      intro p hp
      simp [hc, h1 p hp, Except.toOption]
    · congr 1
      simp [hc, hf, Except.toOption]
  simp only [installPackagesM, hzip]
  rw [applySeq_success_cont env exps l1
      ((pf, none) :: l2.map (fun p => (p, if st0.cancelled = true then none else (env.expandOf p).toOption)))
      { st0 with fetched := st0.fetched ++ (l1 ++ pf :: l2).map (fun p => p.name) }
      (by simp [hc]) h2 (fun p hp => by simpa [isInstalledPackage] using h3 p hp)]
  simp only [applySeq]
  rw [if_neg (by simp [advanceSt, hc])]
  simp [advanceSt]

/-- Claim C5 amended: re-running `InstallPackages` over packages that are
all already recorded as installed performs no filesystem writes and changes
nothing in the target (only the worker-side expansion work re-runs), but it
returns a same-length list of nil entries rather than the installed-package
identities of the first run. -/
theorem c5_amended_second_run_skips (env : InstallEnv) (exps : Pkg → ExpandedPkg)
    (pkgs : List Pkg) (st0 : InstallState)
    (hc : st0.cancelled = false)
    (hexp : ∀ p ∈ pkgs, env.expandOf p = .ok (exps p))
    (hin : ∀ p ∈ pkgs, isInstalledPackage p.name st0 = true) :
    installPackagesM env pkgs st0 =
      (.ok (pkgs.map (fun _ => none)),
       { st0 with fetched := st0.fetched ++ pkgs.map (fun p => p.name), dbResolved := true }) := by
  simp only [installPackagesM]
  rw [expandedList_eq env exps pkgs st0 hc hexp]
  rw [applySeq_allInstalled env exps pkgs
      { st0 with fetched := st0.fetched ++ pkgs.map (fun p => p.name) }
      (by simp [hc]) (fun p hp => by simpa [isInstalledPackage] using hin p hp)]
  simp only []
  rw [finalizeM_nones]

/-- Claim C9: whenever some conflict name returned by the resolver is
already installed in the target, `FixateWorld` returns a conflict error
before the install pipeline starts, and the target state is unchanged. -/
theorem c9_conflict_fails_before_install (wenv : WorldEnv) (env : InstallEnv)
    (st : InstallState) (pkgs : List Pkg) (conflicts : List String) (c : String)
    (hres : wenv.resolveWorld = .ok (pkgs, conflicts))
    (hc : c ∈ conflicts)
    (hinst : isInstalledPackage c st = true) :
    (∃ c2, (fixateWorldM wenv env st).1 = .error (.conflict c2))
    ∧ (fixateWorldM wenv env st).2 = st := by
  simp only [fixateWorldM, hres]
  cases hfind : conflicts.find? (fun x => isInstalledPackage x st) with
  | none =>
    exfalso
    exact (List.find?_eq_none.mp hfind c hc) hinst
  | some c2 => exact ⟨⟨c2, rfl⟩, rfl⟩

theorem alookup_append_of_none {α : Type} (xs ys : List (String × α)) (s : String)
    (h : alookup xs s = none) : alookup (xs ++ ys) s = alookup ys s := by
  induction xs with
  | nil => rfl
  | cons x r ih =>
    obtain ⟨k, v⟩ := x
    simp only [alookup, List.cons_append] at h ⊢
    by_cases hk : k = s
    · simp [hk] at h
    · simp only [if_neg hk] at h ⊢
      exact ih h

theorem alookup_append_of_some {α : Type} (xs ys : List (String × α)) (s : String) (v : α)
    (h : alookup xs s = some v) : alookup (xs ++ ys) s = some v := by
  induction xs with
  | nil => cases h
  | cons x r ih =>
    obtain ⟨k, w⟩ := x
    simp only [alookup, List.cons_append] at h ⊢
    by_cases hk : k = s
    · simpa [hk] using h
    · simp only [if_neg hk] at h ⊢
      exact ih h

theorem alookup_eq_none_of_not_mem {α : Type} (m : List (String × α)) (s : String)
    (h : s ∉ m.map Prod.fst) : alookup m s = none := by
  induction m with
  | nil => rfl
  | cons x r ih =>
    obtain ⟨k, v⟩ := x
    simp only [List.map_cons, List.mem_cons] at h
    push_neg at h
    simp only [alookup]
    rw [if_neg (fun he => h.1 he.symm)]
    exact ih h.2

theorem alookup_uniform {α : Type} (m : List (String × α)) (pid : α) (s : String)
    (hall : ∀ x ∈ m, x.2 = pid) (hmem : s ∈ m.map Prod.fst) :
    alookup m s = some pid := by
  induction m with
  | nil => simp at hmem
  | cons x r ih =>
    obtain ⟨k, v⟩ := x
    by_cases hk : k = s
    · have hv : v = pid := hall (k, v) (by simp)
      simp [alookup, hk, hv]
    · simp only [alookup, if_neg hk]
      apply ih (fun y hy => hall y (by simp [hy]))
      simp only [List.map_cons, List.mem_cons] at hmem
      rcases hmem with h1 | h2
      · exact absurd h1.symm hk
      · exact h2

theorem alookup_pkgClaims_none (pid : Nat) (files : List FileEntry) (s : String)
    (h : ∀ f ∈ files, f.name = s → f.isDir = true) :
    alookup (pkgClaims pid files) s = none := by
  apply alookup_eq_none_of_not_mem
  intro hmem
  simp only [pkgClaims, List.map_map, List.mem_map, List.mem_filter] at hmem
  obtain ⟨f, ⟨hf, hdir⟩, hname⟩ := hmem
  have := h f hf hname
  simp [this] at hdir

theorem alookup_pkgClaims_some (pid : Nat) (files : List FileEntry) (s : String)
    (f : FileEntry) (hf : f ∈ files) (hdir : f.isDir = false) (hname : f.name = s) :
    alookup (pkgClaims pid files) s = some pid := by
  apply alookup_uniform
  · intro x hx
    simp only [pkgClaims, List.mem_map, List.mem_filter] at hx
    obtain ⟨g, _, hgx⟩ := hx
    rw [← hgx]
  · simp only [pkgClaims, List.map_map, List.mem_map, List.mem_filter]
    exact ⟨f, ⟨hf, by simp [hdir]⟩, hname⟩

theorem runClaims_append (exps : Pkg → ExpandedPkg) (l l' : List Pkg) :
    ∀ n : Nat, runClaims exps n (l ++ l')
      = runClaims exps (n + l.length) l' ++ runClaims exps n l := by
  induction l with
  | nil => intro n; simp [runClaims]
  | cons p r ih =>
    intro n
    have harith : n + 1 + r.length = n + (r.length + 1) := by omega
    simp only [List.cons_append, runClaims, List.append_eq]
    rw [ih (n + 1), harith, List.append_assoc]
    simp [List.length_cons]

theorem alookup_runClaims_none (exps : Pkg → ExpandedPkg) (l : List Pkg) (s : String) :
    ∀ n : Nat, (∀ p ∈ l, ∀ f ∈ (exps p).files, f.name = s → f.isDir = true) →
    alookup (runClaims exps n l) s = none := by
  induction l with
  | nil => intro n _; rfl
  | cons p r ih =>
    intro n h
    simp only [runClaims]
    rw [alookup_append_of_none _ _ _ (ih (n + 1) (fun q hq => h q (by simp [hq])))]
    exact alookup_pkgClaims_none n (exps p).files s (h p (by simp))

theorem dbEntriesOf_append (ifs : List (String × Nat)) (exps : Pkg → ExpandedPkg)
    (l l' : List Pkg) :
    ∀ n : Nat, dbEntriesOf ifs exps n (l ++ l')
      = dbEntriesOf ifs exps n l ++ dbEntriesOf ifs exps (n + l.length) l' := by
  induction l with
  | nil => intro n; simp [dbEntriesOf]
  | cons p r ih =>
    intro n
    have harith : n + 1 + r.length = n + (r.length + 1) := by omega
    simp only [List.cons_append, dbEntriesOf, List.append_eq]
    rw [ih (n + 1), harith]
    simp [List.length_cons]

theorem installPackagesM_success (env : InstallEnv) (exps : Pkg → ExpandedPkg)
    (pkgs : List Pkg) (st0 : InstallState)
    (hc : st0.cancelled = false)
    (hexp : ∀ p ∈ pkgs, env.expandOf p = .ok (exps p))
    (hie : ∀ p ∈ pkgs, env.installErr p = none)
    (hni : ∀ p ∈ pkgs, isInstalledPackage p.name st0 = false) :
    installPackagesM env pkgs st0 =
      (.ok (expInfos exps st0.nextId pkgs),
       { installedDB := st0.installedDB
           ++ dbEntriesOf (runClaims exps st0.nextId pkgs ++ st0.installedFiles) exps
                st0.nextId pkgs
         installedFiles := runClaims exps st0.nextId pkgs ++ st0.installedFiles
         fsWrites := st0.fsWrites ++ runWrites exps pkgs
         applied := st0.applied ++ pkgs.map (fun p => (exps p).info.name)
         fetched := st0.fetched ++ pkgs.map (fun p => p.name)
         cancelled := st0.cancelled
         dbResolved := true
         nextId := st0.nextId + pkgs.length }) := by
  simp only [installPackagesM]
  rw [expandedList_eq env exps pkgs st0 hc hexp]
  have hcont := applySeq_success_cont env exps pkgs []
    { st0 with fetched := st0.fetched ++ pkgs.map (fun p => p.name) }
    (by simp [hc]) hie (fun p hp => by simpa [isInstalledPackage] using hni p hp)
  rw [List.append_nil] at hcont
  rw [hcont]
  simp only [applySeq, List.append_nil]
  rw [finalizeM_expInfos]
  obtain ⟨db, ifs, fw, ap, fe, cn, dr, ni⟩ := st0
  simp [advanceSt]

/-- Claim C4: if package `B` installs file path `s` also installed by
package `A` earlier in the same ordered batch (and no later package claims
`s`), then after the batch the ownership map reports `B`'s record as the
owner of `s`, `A`'s persisted installed-file list has no file entry for
`s` while `B`'s includes it, and a directory entry `d` present in both
packages (whose path no package claims as a file) is retained in both
persisted lists. -/
theorem c4_last_writer_owns (env : InstallEnv) (exps : Pkg → ExpandedPkg)
    (l1 l2 l3 : List Pkg) (A B : Pkg) (s : String) (d : FileEntry) (st0 : InstallState)
    (hc : st0.cancelled = false)
    (hexp : ∀ p ∈ l1 ++ A :: (l2 ++ B :: l3), env.expandOf p = .ok (exps p))
    (hie : ∀ p ∈ l1 ++ A :: (l2 ++ B :: l3), env.installErr p = none)
    (hni : ∀ p ∈ l1 ++ A :: (l2 ++ B :: l3), isInstalledPackage p.name st0 = false)
    (hsA : FileEntry.mk s false ∈ (exps A).files)
    (hsB : FileEntry.mk s false ∈ (exps B).files)
    (hs3 : ∀ q ∈ l3, ∀ f ∈ (exps q).files, f.name = s → f.isDir = true)
    (hdA : d ∈ (exps A).files) (hdB : d ∈ (exps B).files) (hdir : d.isDir = true)
    (hdn : ∀ q ∈ l1 ++ A :: (l2 ++ B :: l3), ∀ f ∈ (exps q).files,
        f.name = d.name → f.isDir = true)
    (hd0 : alookup st0.installedFiles d.name = none) :
    alookup (installPackagesM env (l1 ++ A :: (l2 ++ B :: l3)) st0).2.installedFiles s
        = some (st0.nextId + l1.length + 1 + l2.length)
    ∧ (∃ fsA, DBEntry.mk (exps A).info (st0.nextId + l1.length) fsA
          ∈ (installPackagesM env (l1 ++ A :: (l2 ++ B :: l3)) st0).2.installedDB
        ∧ (∀ f ∈ fsA, f.name = s → f.isDir = true) ∧ d ∈ fsA)
    ∧ (∃ fsB, DBEntry.mk (exps B).info (st0.nextId + l1.length + 1 + l2.length) fsB
          ∈ (installPackagesM env (l1 ++ A :: (l2 ++ B :: l3)) st0).2.installedDB
        ∧ FileEntry.mk s false ∈ fsB ∧ d ∈ fsB) := by
  rw [installPackagesM_success env exps (l1 ++ A :: (l2 ++ B :: l3)) st0 hc hexp hie hni]
  have hl3 : alookup (runClaims exps (st0.nextId + l1.length + 1 + l2.length + 1) l3) s = none :=
    alookup_runClaims_none exps l3 s _ hs3
  have hB : alookup (pkgClaims (st0.nextId + l1.length + 1 + l2.length) (exps B).files) s
      = some (st0.nextId + l1.length + 1 + l2.length) :=
    alookup_pkgClaims_some _ (exps B).files s ⟨s, false⟩ hsB rfl rfl
  have hifseq : runClaims exps st0.nextId (l1 ++ A :: (l2 ++ B :: l3))
      = runClaims exps (st0.nextId + l1.length + 1 + l2.length + 1) l3
        ++ (pkgClaims (st0.nextId + l1.length + 1 + l2.length) (exps B).files
        ++ (runClaims exps (st0.nextId + l1.length + 1) l2
        ++ (pkgClaims (st0.nextId + l1.length) (exps A).files
        ++ runClaims exps st0.nextId l1))) := by
    rw [runClaims_append exps l1 (A :: (l2 ++ B :: l3)) st0.nextId]
    simp only [runClaims]
    rw [runClaims_append exps l2 (B :: l3) (st0.nextId + l1.length + 1)]
    simp only [runClaims, List.append_assoc]
  have hlook : alookup (runClaims exps st0.nextId (l1 ++ A :: (l2 ++ B :: l3))
      ++ st0.installedFiles) s = some (st0.nextId + l1.length + 1 + l2.length) := by
    rw [hifseq]
    simp only [List.append_assoc]
    rw [alookup_append_of_none _ _ _ hl3]
    exact alookup_append_of_some _ _ _ _ hB
  have hdnone : alookup (runClaims exps st0.nextId (l1 ++ A :: (l2 ++ B :: l3))
      ++ st0.installedFiles) d.name = none := by
    rw [alookup_append_of_none _ _ _
      (alookup_runClaims_none exps (l1 ++ A :: (l2 ++ B :: l3)) d.name st0.nextId hdn)]
    exact hd0
  have hdbeq : dbEntriesOf (runClaims exps st0.nextId (l1 ++ A :: (l2 ++ B :: l3))
        ++ st0.installedFiles) exps st0.nextId (l1 ++ A :: (l2 ++ B :: l3))
      = dbEntriesOf (runClaims exps st0.nextId (l1 ++ A :: (l2 ++ B :: l3))
          ++ st0.installedFiles) exps st0.nextId l1
        ++ DBEntry.mk (exps A).info (st0.nextId + l1.length)
            ((exps A).files.filter (keepFile (runClaims exps st0.nextId
              (l1 ++ A :: (l2 ++ B :: l3)) ++ st0.installedFiles) (st0.nextId + l1.length)))
          :: (dbEntriesOf (runClaims exps st0.nextId (l1 ++ A :: (l2 ++ B :: l3))
              ++ st0.installedFiles) exps (st0.nextId + l1.length + 1) l2
            ++ DBEntry.mk (exps B).info (st0.nextId + l1.length + 1 + l2.length)
                ((exps B).files.filter (keepFile (runClaims exps st0.nextId
                  (l1 ++ A :: (l2 ++ B :: l3)) ++ st0.installedFiles)
                  (st0.nextId + l1.length + 1 + l2.length)))
              :: dbEntriesOf (runClaims exps st0.nextId (l1 ++ A :: (l2 ++ B :: l3))
                  ++ st0.installedFiles) exps (st0.nextId + l1.length + 1 + l2.length + 1) l3) := by
    rw [dbEntriesOf_append _ exps l1 _ st0.nextId]
    simp only [dbEntriesOf]
    rw [dbEntriesOf_append _ exps l2 _ (st0.nextId + l1.length + 1)]
    simp only [dbEntriesOf]
  refine ⟨hlook, ?_, ?_⟩
  · refine ⟨(exps A).files.filter (keepFile (runClaims exps st0.nextId
        (l1 ++ A :: (l2 ++ B :: l3)) ++ st0.installedFiles) (st0.nextId + l1.length)), ?_, ?_, ?_⟩
    · show DBEntry.mk _ _ _ ∈ st0.installedDB ++ dbEntriesOf _ exps st0.nextId _
      rw [hdbeq]
      apply List.mem_append_right
      apply List.mem_append_right
      exact List.mem_cons_self _ _
    · intro f hf hfs
      exfalso
      rw [List.mem_filter] at hf
      have hk := hf.2
      rw [keepFile, hfs, hlook] at hk
      simp only [beq_iff_eq] at hk
      omega
    · rw [List.mem_filter]
      refine ⟨hdA, ?_⟩
      rw [keepFile, hdnone]
  · refine ⟨(exps B).files.filter (keepFile (runClaims exps st0.nextId
        (l1 ++ A :: (l2 ++ B :: l3)) ++ st0.installedFiles)
        (st0.nextId + l1.length + 1 + l2.length)), ?_, ?_, ?_⟩
    · show DBEntry.mk _ _ _ ∈ st0.installedDB ++ dbEntriesOf _ exps st0.nextId _
      rw [hdbeq]
      apply List.mem_append_right
      apply List.mem_append_right
      apply List.mem_cons_of_mem
      apply List.mem_append_right
      exact List.mem_cons_self _ _
    · rw [List.mem_filter]
      refine ⟨hsB, ?_⟩
      simp [keepFile, hlook]
    · rw [List.mem_filter]
      refine ⟨hdB, ?_⟩
      rw [keepFile, hdnone]


/-! Claim C2 counterexample and further witnesses. -/

/-- Claim C2 counterexample: with the expansion of the first package
failing, `InstallPackages` returns its error, yet the batch context is
never cancelled and the sibling worker still ran its expansion work to
completion (`fetched` records both packages). -/
theorem c2_counterexample :
    (installPackagesM envInstall [pkgF, pkgW3] stFresh).1 = .error (.expansionNil "f")
    ∧ (installPackagesM envInstall [pkgF, pkgW3] stFresh).2.cancelled = false
    ∧ (installPackagesM envInstall [pkgF, pkgW3] stFresh).2.fetched = ["f", "w3"] := by
  decide

theorem c3_witness :
    (stFresh.cancelled = false
      ∧ (∀ p ∈ [pkgW1], envInstall.expandOf p = .ok (expsW p))
      ∧ (∀ p ∈ [pkgW1], envInstall.installErr p = none)
      ∧ (∀ p ∈ [pkgW1], isInstalledPackage p.name stFresh = false)
      ∧ envInstall.expandOf pkgF = .error (.fetchFail "https://r/f.apk"))
    ∧ ((installPackagesM envInstall ([pkgW1] ++ pkgF :: [pkgW3]) stFresh).1
          = .error (.expansionNil pkgF.name)
      ∧ (installPackagesM envInstall ([pkgW1] ++ pkgF :: [pkgW3]) stFresh).2.applied
          = stFresh.applied ++ [pkgW1].map (fun p => (expsW p).info.name)
      ∧ (installPackagesM envInstall ([pkgW1] ++ pkgF :: [pkgW3]) stFresh).2.fsWrites
          = stFresh.fsWrites ++ runWrites expsW [pkgW1]) :=
  ⟨⟨rfl, by decide, by decide, by decide, by decide⟩,
   c3_failure_cuts_batch envInstall expsW [pkgW1] [pkgW3] pkgF (.fetchFail "https://r/f.apk")
     stFresh rfl (by decide) (by decide) (by decide) (by decide)⟩

theorem c4_witness :
    (stFresh.cancelled = false
      ∧ (∀ p ∈ [] ++ pkgA4 :: ([] ++ pkgB4 :: []), envOwn.expandOf p = .ok (exps4 p))
      ∧ (∀ p ∈ [] ++ pkgA4 :: ([] ++ pkgB4 :: []), envOwn.installErr p = none)
      ∧ (∀ p ∈ [] ++ pkgA4 :: ([] ++ pkgB4 :: []), isInstalledPackage p.name stFresh = false)
      ∧ FileEntry.mk "/bin/x" false ∈ (exps4 pkgA4).files
      ∧ FileEntry.mk "/bin/x" false ∈ (exps4 pkgB4).files
      ∧ (∀ q ∈ ([] : List Pkg), ∀ f ∈ (exps4 q).files, f.name = "/bin/x" → f.isDir = true)
      ∧ FileEntry.mk "/bin" true ∈ (exps4 pkgA4).files
      ∧ FileEntry.mk "/bin" true ∈ (exps4 pkgB4).files
      ∧ (FileEntry.mk "/bin" true).isDir = true
      ∧ (∀ q ∈ [] ++ pkgA4 :: ([] ++ pkgB4 :: []), ∀ f ∈ (exps4 q).files,
          f.name = (FileEntry.mk "/bin" true).name → f.isDir = true)
      ∧ alookup stFresh.installedFiles (FileEntry.mk "/bin" true).name = none)
    ∧ (alookup (installPackagesM envOwn ([] ++ pkgA4 :: ([] ++ pkgB4 :: [])) stFresh).2.installedFiles
          "/bin/x" = some (stFresh.nextId + List.length ([] : List Pkg) + 1 + List.length ([] : List Pkg))
      ∧ (∃ fsA, DBEntry.mk (exps4 pkgA4).info (stFresh.nextId + List.length ([] : List Pkg)) fsA
            ∈ (installPackagesM envOwn ([] ++ pkgA4 :: ([] ++ pkgB4 :: [])) stFresh).2.installedDB
          ∧ (∀ f ∈ fsA, f.name = "/bin/x" → f.isDir = true) ∧ FileEntry.mk "/bin" true ∈ fsA)
      ∧ (∃ fsB, DBEntry.mk (exps4 pkgB4).info
            (stFresh.nextId + List.length ([] : List Pkg) + 1 + List.length ([] : List Pkg)) fsB
            ∈ (installPackagesM envOwn ([] ++ pkgA4 :: ([] ++ pkgB4 :: [])) stFresh).2.installedDB
          ∧ FileEntry.mk "/bin/x" false ∈ fsB ∧ FileEntry.mk "/bin" true ∈ fsB)) :=
  ⟨⟨rfl, by decide, by decide, by decide, by decide, by decide, by decide, by decide,
    by decide, rfl, by decide, rfl⟩,
   c4_last_writer_owns envOwn exps4 [] [] [] pkgA4 pkgB4 "/bin/x" (FileEntry.mk "/bin" true)
     stFresh rfl (by decide) (by decide) (by decide) (by decide) (by decide) (by decide)
     (by decide) (by decide) rfl (by decide) rfl⟩

/-- Claim C5 counterexample: running the same one-package install twice,
the first run returns the installed package's identity but the second run
returns a nil entry, so the two runs do not return the same
installed-package identities. -/
theorem c5_counterexample :
    (installPackagesM envInstall [pkgW1] stFresh).1 = .ok [some (0, ⟨"w1", "1"⟩)]
    ∧ (installPackagesM envInstall [pkgW1] (installPackagesM envInstall [pkgW1] stFresh).2).1
        = .ok [none]
    ∧ (installPackagesM envInstall [pkgW1] (installPackagesM envInstall [pkgW1] stFresh).2).1
        ≠ (installPackagesM envInstall [pkgW1] stFresh).1 := by
  decide

theorem c5_witness :
    ((installPackagesM envInstall [pkgW1] stFresh).2.cancelled = false
      ∧ (∀ p ∈ [pkgW1], envInstall.expandOf p = .ok (expsW p))
      ∧ (∀ p ∈ [pkgW1],
          isInstalledPackage p.name (installPackagesM envInstall [pkgW1] stFresh).2 = true))
    ∧ installPackagesM envInstall [pkgW1] (installPackagesM envInstall [pkgW1] stFresh).2 =
        (.ok ([pkgW1].map (fun _ => none)),
         { (installPackagesM envInstall [pkgW1] stFresh).2 with
             fetched := (installPackagesM envInstall [pkgW1] stFresh).2.fetched
               ++ [pkgW1].map (fun p => p.name)
             dbResolved := true }) :=
  ⟨⟨by decide, by decide, by decide⟩,
   c5_amended_second_run_skips envInstall expsW [pkgW1]
     (installPackagesM envInstall [pkgW1] stFresh).2 (by decide) (by decide) (by decide)⟩

theorem c9_witness :
    (wenvConflict.resolveWorld = .ok ([], ["gcc"])
      ∧ "gcc" ∈ ["gcc"]
      ∧ isInstalledPackage "gcc" stGcc = true)
    ∧ ((∃ c2, (fixateWorldM wenvConflict envInstall stGcc).1 = .error (.conflict c2))
      ∧ (fixateWorldM wenvConflict envInstall stGcc).2 = stGcc) :=
  ⟨⟨rfl, by decide, by decide⟩,
   c9_conflict_fails_before_install wenvConflict envInstall stGcc [] ["gcc"] "gcc" rfl
     (by decide) (by decide)⟩

end ApkVerify
